import Mathlib

set_option linter.unusedVariables false

/-!
Shallow embedding of the decision-table evaluator in `src/dmn-runner.js`
(functions `parseUnaryTest`, `parseOutputExpression`, `evaluateDecision`).

JavaScript runtime values that can appear in an input mapping or as a
compiled output literal are modelled by the closed variant `JValue`
(strings, booleans, integer numbers, `null`, `undefined`).  The source
manipulates only integer numerics (its grammar parses `\d+` with
`parseInt`), so numbers are modelled as `Int`; JavaScript's ToNumber
coercion of non-integer strings (fractions, exponents, hex) is not
integer-representable and is mapped to `none` (the NaN-like case) — no
claim depends on those strings.  Match-cell text is manipulated at the
character-list level, mirroring the JS string operations (`trim`,
`startsWith`/`endsWith`, `slice(1,-1)`, and the three anchored regexes).
-/

namespace DMN

/-- JavaScript runtime values relevant to the decision table: strings,
booleans, (integer) numbers, `null`, and `undefined` (absent). -/
inductive JValue where
  | str (s : String)
  | bool (b : Bool)
  | int (n : Int)
  | null
  | undefined
deriving DecidableEq, Repr

/-- Whitespace characters removed by `String.prototype.trim` / matched by
`\s` (the ASCII subset; other Unicode whitespace never appears in the
table cells this runner processes). -/
def isJsWhitespace (c : Char) : Bool :=
  c == ' ' || c == '\t' || c == '\n' || c == '\r' || c == '\u000B' || c == '\u000C'

/-- JavaScript `text.trim()`: strip leading and trailing whitespace. -/
def trimChars (l : List Char) : List Char :=
  ((l.dropWhile isJsWhitespace).reverse.dropWhile isJsWhitespace).reverse

/-- Head-of-string test: JS `text.startsWith(c)` for a one-character `c`. -/
def headIs (c : Char) (l : List Char) : Bool :=
  match l with
  | [] => false
  | x :: _ => x == c

/-- Last-of-string test: JS `text.endsWith(c)` for a one-character `c`. -/
def lastIs (c : Char) (l : List Char) : Bool :=
  headIs c l.reverse

/-- Decimal value of a digit string: JS `parseInt(text, 10)` on a string
already known to consist of decimal digits. -/
def digitsVal (l : List Char) : Nat :=
  l.foldl (fun a c => 10 * a + (c.toNat - 48)) 0

/-- The anchored regex test `/^\d+$/`: nonempty, all decimal digits. -/
def isDigitsL (l : List Char) : Bool :=
  !l.isEmpty && l.all Char.isDigit

/-- Comparison operators of the unary-test grammar (`<`, `>`, `<=`, `>=`). -/
inductive CompOp where
  | lt | gt | le | ge
deriving DecidableEq, Repr

/-- Compiled unary tests: the closures returned by `parseUnaryTest`,
represented as first-order data paired with the evaluator
`evalUnaryTest`. -/
inductive UnaryTest where
  | wildcard
  | stringEq (s : String)
  | boolEq (b : Bool)
  | range (min max : Int)
  | comp (op : CompOp) (n : Int)
  | intEq (n : Int)
deriving DecidableEq, Repr

/-- The regex `^\[(\d+)\.\.(\d+)\]$` from the range branch of
`parseUnaryTest`.  Greedy `takeWhile` coincides with the regex's `\d+`
because a digit can match neither `.` nor `]`, so no backtracking can
succeed where maximal munch fails. -/
def rangeMatchL (l : List Char) : Option (Nat × Nat) :=
  match l with
  | c :: rest =>
    if c = '[' then
      let ds1 := rest.takeWhile Char.isDigit
      if ds1 = [] then none
      else
        match rest.dropWhile Char.isDigit with
        | d1 :: d2 :: rest2 =>
          if d1 = '.' ∧ d2 = '.' then
            let ds2 := rest2.takeWhile Char.isDigit
            if ds2 = [] then none
            else
              match rest2.dropWhile Char.isDigit with
              | [e] => if e = ']' then some (digitsVal ds1, digitsVal ds2) else none
              | _ => none
          else none
        | _ => none
    else none
  | [] => none

/-- The regex `^([<>]=?)(\d+)$` from the comparison branch of
`parseUnaryTest`.  Trying the two-character operators `<=`/`>=` before
the one-character ones coincides with the regex because `=` is not a
digit. -/
def compMatchL (l : List Char) : Option (CompOp × Nat) :=
  match l with
  | c :: rest =>
    if c = '<' ∨ c = '>' then
      match rest with
      | e :: rest2 =>
        if e = '=' then
          if isDigitsL rest2 then
            some ((if c = '<' then CompOp.le else CompOp.ge), digitsVal rest2)
          else none
        else
          if isDigitsL rest then
            some ((if c = '<' then CompOp.lt else CompOp.gt), digitsVal rest)
          else none
      | [] => none
    else none
  | [] => none

/-- The body of `parseUnaryTest` at the character-list level. -/
def parseUnaryTestL (l : List Char) : Except String UnaryTest :=
  if l = [] ∨ l = ['-'] ∨ trimChars l = [] then
    .ok .wildcard
  else
    let t := trimChars l
    if headIs '"' t && lastIs '"' t then
      .ok (.stringEq ⟨(t.drop 1).dropLast⟩)
    else if t = "true".data then .ok (.boolEq true)
    else if t = "false".data then .ok (.boolEq false)
    else
      match rangeMatchL t with
      | some (mn, mx) => .ok (.range mn mx)
      | none =>
        match compMatchL t with
        | some (op, n) => .ok (.comp op n)
        | none =>
          if isDigitsL t then .ok (.intEq (digitsVal t))
          else .error ("Unsupported FEEL expression: " ++ (⟨t⟩ : String))

/-- `parseUnaryTest(textValue, inputType)` from `src/dmn-runner.js`
(lines 24–70).  The `inputType` parameter is accepted and, as in the
source, never used.  Cell text is assumed already string-typed (the
`getText` normalisation of XML mixed content is upstream of the claims). -/
def parseUnaryTest (textValue : String) (inputType : String) : Except String UnaryTest :=
  parseUnaryTestL textValue.data

/-- The body of `parseOutputExpression` at the character-list level. -/
def parseOutputExpressionL (l : List Char) : JValue :=
  if l = [] then .null
  else
    let t := trimChars l
    if t = "true".data then .bool true
    else if t = "false".data then .bool false
    else if headIs '"' t && lastIs '"' t then .str ⟨(t.drop 1).dropLast⟩
    else if isDigitsL t then .int (digitsVal t)
    else .str ⟨t⟩

/-- `parseOutputExpression(textValue)` from `src/dmn-runner.js`
(lines 75–88): empty text is `null`; `true`/`false` are booleans; a
double-quoted string is the unquoted string; a digit string is the
integer; and the final `return text` makes any other text the trimmed
raw text itself (a JS string), not an error. -/
def parseOutputExpression (textValue : String) : JValue :=
  parseOutputExpressionL textValue.data

/-- JavaScript ToNumber on the modelled values, used by the relational
operators: numbers are themselves, `true`/`false` are 1/0, `null` is 0,
`undefined` is NaN (`none`), and strings are trimmed and read as optional
signed decimal integers (other numeric string forms are not
integer-representable and map to `none`). -/
def jsToNumber (v : JValue) : Option Int :=
  match v with
  | .int n => some n
  | .bool b => some (if b then 1 else 0)
  | .null => some 0
  | .undefined => none
  | .str s =>
    let t := trimChars s.data
    if t = [] then some 0
    else
      match t with
      | '-' :: ds => if isDigitsL ds then some (-(digitsVal ds : Int)) else none
      | '+' :: ds => if isDigitsL ds then some ((digitsVal ds : Int)) else none
      | ds => if isDigitsL ds then some ((digitsVal ds : Int)) else none

/-- JavaScript strict equality `===` on the modelled values: equal kind
and equal payload. -/
def jsStrictEq (a b : JValue) : Bool :=
  match a, b with
  | .str x, .str y => x == y
  | .bool x, .bool y => x == y
  | .int x, .int y => x == y
  | .null, .null => true
  | .undefined, .undefined => true
  | _, _ => false

/-- JavaScript `v < n` for a number literal `n`: NaN comparisons are false. -/
def jsLtNum (v : JValue) (n : Int) : Bool :=
  match jsToNumber v with
  | some m => m < n
  | none => false

/-- JavaScript `v > n` for a number literal `n`. -/
def jsGtNum (v : JValue) (n : Int) : Bool :=
  match jsToNumber v with
  | some m => n < m
  | none => false

/-- JavaScript `v <= n` for a number literal `n`. -/
def jsLeNum (v : JValue) (n : Int) : Bool :=
  match jsToNumber v with
  | some m => m ≤ n
  | none => false

/-- JavaScript `v >= n` for a number literal `n`. -/
def jsGeNum (v : JValue) (n : Int) : Bool :=
  match jsToNumber v with
  | some m => n ≤ m
  | none => false

/-- Application of a compiled unary test to a runtime value: the bodies
of the closures returned by `parseUnaryTest` (string/boolean/number `===`
comparisons, `input >= min && input <= max`, and the four relational
operators). -/
def evalUnaryTest (t : UnaryTest) (input : JValue) : Bool :=
  match t with
  | .wildcard => true
  | .stringEq s => jsStrictEq input (.str s)
  | .boolEq b => jsStrictEq input (.bool b)
  | .range mn mx => jsGeNum input mn && jsLeNum input mx
  | .comp .lt n => jsLtNum input n
  | .comp .gt n => jsGtNum input n
  | .comp .le n => jsLeNum input n
  | .comp .ge n => jsGeNum input n
  | .intEq n => jsStrictEq input (.int n)

/-- One input column of the loaded decision (`inputDefs` entry). -/
structure InputDef where
  name : String
  type : String
deriving DecidableEq, Repr

/-- The output column of the loaded decision (`outputDef`). -/
structure OutputDef where
  name : String
deriving DecidableEq, Repr

/-- One compiled rule condition: input name plus compiled test. -/
structure Condition where
  inputName : String
  test : UnaryTest
deriving DecidableEq, Repr

/-- One compiled rule: its conditions and its compiled output literal. -/
structure Rule where
  conditions : List Condition
  outputValue : JValue
deriving DecidableEq, Repr

/-- A compiled decision table (`parsedDecision` shape). -/
structure Decision where
  inputs : List InputDef
  output : OutputDef
  rules : List Rule
deriving DecidableEq, Repr

/-- A runtime input mapping: a JS object from input names to values. -/
abbrev Inputs := List (String × JValue)

/-- JS property access `inputs[name]`: a missing key reads as `undefined`. -/
def lookupInput (inputs : Inputs) (name : String) : JValue :=
  match inputs.find? (fun p => p.1 == name) with
  | some p => p.2
  | none => .undefined

/-- One iteration of the inner condition loop: look the condition's input
up and apply its compiled test. -/
def condHolds (inputs : Inputs) (c : Condition) : Bool :=
  evalUnaryTest c.test (lookupInput inputs c.inputName)

/-- The inner loop of `evaluateDecision`: a rule matches when every
condition's test succeeds (short-circuit conjunction). -/
def ruleMatches (inputs : Inputs) (r : Rule) : Bool :=
  r.conditions.all (condHolds inputs)

/-- `evaluateDecision(inputs)` from `src/dmn-runner.js` (lines 160–180),
with the compiled decision passed explicitly (the source obtains it from
`loadDMN()`'s cache; file loading is outside this core).  The outer loop
returns `{ [decision.output.name]: rule.outputValue }` for the first
matching rule and `{ [decision.output.name]: null }` when none matches. -/
def evaluateDecision (d : Decision) (inputs : Inputs) : String × JValue :=
  match d.rules.find? (ruleMatches inputs) with
  | some r => (d.output.name, r.outputValue)
  | none => (d.output.name, .null)

/-- The rule loop of `evaluateDecision` with the decision value threaded
through explicitly and returned, making it observable that an evaluation
hands back the very table it was given (the source loop only ever reads
`decision`). -/
def evalRulesLoop (d : Decision) (rules : List Rule) (inputs : Inputs) :
    (String × JValue) × Decision :=
  match rules with
  | [] => ((d.output.name, .null), d)
  | r :: rs =>
    if ruleMatches inputs r then ((d.output.name, r.outputValue), d)
    else evalRulesLoop d rs inputs

/-- `evaluateDecision` in state-threading form. -/
def evaluateDecisionSt (d : Decision) (inputs : Inputs) :
    (String × JValue) × Decision :=
  evalRulesLoop d d.rules inputs

/-! Helper lemmas about the character-level operations. -/

/-- Whitespace characters are not decimal digits. -/
theorem not_ws_of_isDigit {c : Char} (h : c.isDigit = true) : isJsWhitespace c = false := by
  by_contra hws
  rw [Bool.not_eq_false] at hws
  unfold isJsWhitespace at hws
  simp only [Bool.or_eq_true, beq_iff_eq] at hws
  rcases hws with ((((rfl | rfl) | rfl) | rfl) | rfl) | rfl <;> exact absurd h (by decide)

/-- A list whose members all fail the predicate is untouched by `trimChars`. -/
theorem trimChars_of_forall (l : List Char) (h : ∀ c ∈ l, isJsWhitespace c = false) :
    trimChars l = l := by
  unfold trimChars
  have h1 : l.dropWhile isJsWhitespace = l := by
    cases l with
    | nil => rfl
    | cons c t => rw [List.dropWhile_cons, h c (List.mem_cons_self c t)]; simp
  rw [h1]
  have h2 : l.reverse.dropWhile isJsWhitespace = l.reverse := by
    cases hr : l.reverse with
    | nil => rfl
    | cons c t =>
      have hc : c ∈ l := List.mem_reverse.mp (by rw [hr]; exact List.mem_cons_self c t)
      rw [List.dropWhile_cons, h c hc]; simp
  rw [h2, List.reverse_reverse]

/-- A list whose members all satisfy the predicate trims to the empty list. -/
theorem trimChars_of_all_ws (l : List Char) (h : ∀ c ∈ l, isJsWhitespace c = true) :
    trimChars l = [] := by
  unfold trimChars
  have h1 : l.dropWhile isJsWhitespace = [] := by
    induction l with
    | nil => rfl
    | cons c t ih =>
      rw [List.dropWhile_cons, h c (List.mem_cons_self c t)]
      simpa using ih (fun d hd => h d (List.mem_cons_of_mem c hd))
  rw [h1]
  rfl

/-- Splitting `takeWhile`/`dropWhile Char.isDigit` around the first
non-digit character. -/
theorem takeWhile_digits_append :
    ∀ (a : List Char), (∀ c ∈ a, Char.isDigit c = true) →
      ∀ (x : Char), Char.isDigit x = false → ∀ (xs : List Char),
        (a ++ x :: xs).takeWhile Char.isDigit = a ∧
          (a ++ x :: xs).dropWhile Char.isDigit = x :: xs
  | [], _, x, hx, xs => by
    constructor
    · rw [List.nil_append, List.takeWhile_cons, hx]; rfl
    · rw [List.nil_append, List.dropWhile_cons, hx]; rfl
  | c :: t, ha, x, hx, xs => by
    have hc := ha c (List.mem_cons_self c t)
    obtain ⟨h1, h2⟩ :=
      takeWhile_digits_append t (fun d hd => ha d (List.mem_cons_of_mem c hd)) x hx xs
    constructor
    · rw [List.cons_append, List.takeWhile_cons, hc]; simpa using h1
    · rw [List.cons_append, List.dropWhile_cons, hc]; simpa using h2

/-- `List.find?` returns the first element satisfying the predicate: if
position `i` satisfies it, then `find?` returns the element at some
position `k ≤ i` that satisfies it while every earlier position fails it. -/
theorem find?_first {α : Type} (p : α → Bool) :
    ∀ (l : List α) (i : Nat) (hi : i < l.length), p (l.get ⟨i, hi⟩) = true →
      ∃ (k : Nat) (hk : k < l.length), k ≤ i ∧ p (l.get ⟨k, hk⟩) = true ∧
        (∀ (m : Nat), m < k → ∀ (hml : m < l.length), p (l.get ⟨m, hml⟩) = false) ∧
        l.find? p = some (l.get ⟨k, hk⟩)
  | a :: t, i, hi, hp => by
    cases hpa : p a with
    | true =>
      refine ⟨0, by simp, Nat.zero_le _, hpa, ?_, ?_⟩
      · intro m hm
        exact absurd hm (Nat.not_lt_zero m)
      · rw [List.find?_cons_of_pos t hpa]
        rfl
    | false =>
      match i, hi, hp with
      | 0, hi, hp => exact absurd hp (by simp [hpa])
      | i + 1, hi, hp =>
        have hi' : i < t.length := Nat.lt_of_succ_lt_succ hi
        have hp' : p (t.get ⟨i, hi'⟩) = true := by
          simpa [List.get_cons_succ] using hp
        obtain ⟨k, hk, hki, hpk, hmin, hfind⟩ := find?_first p t i hi' hp'
        refine ⟨k + 1, Nat.succ_lt_succ hk, Nat.succ_le_succ hki, ?_, ?_, ?_⟩
        · simpa [List.get_cons_succ] using hpk
        · intro m hm hml
          match m, hm, hml with
          | 0, _, _ => exact hpa
          | m' + 1, hm, hml =>
            have := hmin m' (Nat.lt_of_succ_lt_succ hm) (Nat.lt_of_succ_lt_succ hml)
            simpa [List.get_cons_succ] using this
        · rw [List.find?_cons_of_neg t (by simp [hpa]), hfind]
          rw [List.get_cons_succ]

/-- The range regex accepts exactly a bracketed pair of nonempty digit
runs separated by `..`, capturing their decimal values. -/
theorem rangeMatchL_concat (a b : List Char) (ha : a ≠ []) (hb : b ≠ [])
    (hda : ∀ c ∈ a, Char.isDigit c = true) (hdb : ∀ c ∈ b, Char.isDigit c = true) :
    rangeMatchL ('[' :: (a ++ '.' :: '.' :: (b ++ [']']))) =
      some (digitsVal a, digitsVal b) := by
  have h1 := takeWhile_digits_append a hda '.' (by decide) ('.' :: (b ++ [']']))
  have h2 := takeWhile_digits_append b hdb ']' (by decide) []
  unfold rangeMatchL
  simp [h1.1, h1.2, h2.1, h2.2, ha, hb]

/-- Auxiliary facts about the shape of a range-expression character list:
it is not a boolean literal, not quoted, not all whitespace. -/
theorem range_shape_facts (a b : List Char)
    (hda : ∀ c ∈ a, Char.isDigit c = true) (hdb : ∀ c ∈ b, Char.isDigit c = true) :
    (∀ c ∈ '[' :: (a ++ '.' :: '.' :: (b ++ [']'])), isJsWhitespace c = false) := by
  intro c hc
  simp only [List.mem_cons, List.mem_append, List.mem_singleton] at hc
  rcases hc with rfl | hc | rfl | rfl | hc | rfl | hc
  · decide
  · exact not_ws_of_isDigit (hda c hc)
  · decide
  · decide
  · exact not_ws_of_isDigit (hdb c hc)
  · decide
  · exact absurd hc (List.not_mem_nil c)

/-- Compiling the text `[a..b]` (with `a`, `b` nonempty digit runs)
yields a range test over the two decimal values. -/
theorem parseUnaryTestL_range (a b : List Char) (ha : a ≠ []) (hb : b ≠ [])
    (hda : ∀ c ∈ a, Char.isDigit c = true) (hdb : ∀ c ∈ b, Char.isDigit c = true) :
    parseUnaryTestL ('[' :: (a ++ '.' :: '.' :: (b ++ [']']))) =
      .ok (.range (digitsVal a) (digitsVal b)) := by
  have hws := range_shape_facts a b hda hdb
  have htrim := trimChars_of_forall _ hws
  have hrange := rangeMatchL_concat a b ha hb hda hdb
  have htrue : ('[' :: (a ++ '.' :: '.' :: (b ++ [']']))) ≠ "true".data := by
    rw [show "true".data = ['t', 'r', 'u', 'e'] from rfl]
    intro h
    injection h with h1 _
    exact absurd h1 (by decide)
  have hfalse : ('[' :: (a ++ '.' :: '.' :: (b ++ [']']))) ≠ "false".data := by
    rw [show "false".data = ['f', 'a', 'l', 's', 'e'] from rfl]
    intro h
    injection h with h1 _
    exact absurd h1 (by decide)
  unfold parseUnaryTestL
  rw [if_neg (by simp [htrim])]
  simp only [htrim]
  rw [show headIs '"' ('[' :: (a ++ '.' :: '.' :: (b ++ [']']))) = false from rfl]
  simp only [Bool.false_and, if_neg, Bool.false_eq_true, if_false]
  rw [if_neg htrue, if_neg hfalse, hrange]

/-! Evaluation-level lemmas and sample tables. -/

/-- The state-threading rule loop hands the decision value back unchanged. -/
theorem evalRulesLoop_snd (d : Decision) (inputs : Inputs) :
    ∀ rules : List Rule, (evalRulesLoop d rules inputs).2 = d
  | [] => rfl
  | r :: rs => by
    unfold evalRulesLoop
    cases h : ruleMatches inputs r with
    | true => simp [h]
    | false => simpa [h] using evalRulesLoop_snd d inputs rs

/-- The state-threading rule loop computes the same result as the
`find?`-based evaluator. -/
theorem evalRulesLoop_fst (d : Decision) (inputs : Inputs) :
    ∀ rules : List Rule,
      (evalRulesLoop d rules inputs).1 =
        (match rules.find? (ruleMatches inputs) with
         | some r => (d.output.name, r.outputValue)
         | none => (d.output.name, JValue.null))
  | [] => rfl
  | r :: rs => by
    cases h : ruleMatches inputs r with
    | true =>
      rw [List.find?_cons_of_pos rs h]
      unfold evalRulesLoop
      simp [h]
    | false =>
      rw [List.find?_cons_of_neg rs (by simp [h])]
      unfold evalRulesLoop
      simpa [h] using evalRulesLoop_fst d inputs rs

/-- The clinical sample table from the DMN source: inputs `Gender`,
`AgeInYears`, `MammogramInLastTwoYears`; output `RecommendMammogram`. -/
def bcsDecision : Decision :=
  { inputs :=
      [⟨"Gender", "string"⟩, ⟨"AgeInYears", "number"⟩,
        ⟨"MammogramInLastTwoYears", "boolean"⟩]
  , output := ⟨"RecommendMammogram"⟩
  , rules :=
      [ ⟨[⟨"Gender", .stringEq "female"⟩, ⟨"AgeInYears", .range 40 74⟩,
          ⟨"MammogramInLastTwoYears", .boolEq false⟩], .bool true⟩
      , ⟨[⟨"Gender", .stringEq "male"⟩], .bool false⟩
      , ⟨[⟨"Gender", .stringEq "female"⟩, ⟨"AgeInYears", .comp .lt 40⟩], .bool false⟩
      , ⟨[⟨"Gender", .stringEq "female"⟩, ⟨"AgeInYears", .comp .gt 74⟩], .bool false⟩ ] }

/-- A two-rule table in which both rules match every input. -/
def twoRuleTable : Decision :=
  { inputs := [⟨"X", "string"⟩]
  , output := ⟨"Out"⟩
  , rules := [⟨[⟨"X", .wildcard⟩], .int 1⟩, ⟨[⟨"X", .wildcard⟩], .int 2⟩] }

/-- C1.  First-match-wins: when rules at positions `i < j` both match,
the returned output is that of the earliest matching rule — a rule at a
position `k ≤ i` (so strictly before the later rule `j`); and when no
rule before `i` matches, it is exactly rule `i`'s output. -/
theorem firstMatchPriority (d : Decision) (inputs : Inputs) (i j : Nat)
    (hij : i < j) (hj : j < d.rules.length)
    (hri : ruleMatches inputs (d.rules.get ⟨i, Nat.lt_trans hij hj⟩) = true)
    (hrj : ruleMatches inputs (d.rules.get ⟨j, hj⟩) = true) :
    (∃ (k : Nat) (hk : k < d.rules.length), k ≤ i ∧ k < j ∧
      ruleMatches inputs (d.rules.get ⟨k, hk⟩) = true ∧
      (∀ (m : Nat), m < k → ∀ (hml : m < d.rules.length),
        ruleMatches inputs (d.rules.get ⟨m, hml⟩) = false) ∧
      evaluateDecision d inputs =
        (d.output.name, (d.rules.get ⟨k, hk⟩).outputValue)) ∧
    ((∀ (m : Nat), m < i → ∀ (hml : m < d.rules.length),
        ruleMatches inputs (d.rules.get ⟨m, hml⟩) = false) →
      evaluateDecision d inputs =
        (d.output.name, (d.rules.get ⟨i, Nat.lt_trans hij hj⟩).outputValue)) := by
  obtain ⟨k, hk, hki, hpk, hmin, hfind⟩ :=
    find?_first (ruleMatches inputs) d.rules i (Nat.lt_trans hij hj) hri
  have heval : evaluateDecision d inputs =
      (d.output.name, (d.rules.get ⟨k, hk⟩).outputValue) := by
    unfold evaluateDecision
    rw [hfind]
  constructor
  · exact ⟨k, hk, hki, Nat.lt_of_le_of_lt hki hij, hpk, hmin, heval⟩
  · intro hfirstm
    have hk_eq : k = i := by
      rcases Nat.lt_or_ge k i with hlt | hge
      · have hcontra := hfirstm k hlt hk
        rw [hcontra] at hpk
        exact absurd hpk (by decide)
      · omega
    subst hk_eq
    exact heval

/-- C1 witness: on a table whose first two rules are both all-wildcard,
the evaluator returns the first rule's output. -/
theorem firstMatchPriority_witness :
    evaluateDecision twoRuleTable [("X", .str "v")] = ("Out", .int 1) := by
  have h := firstMatchPriority twoRuleTable [("X", .str "v")] 0 1
    (by decide) (by decide) (by decide) (by decide)
  exact h.2 (fun m hm hml => absurd hm (Nat.not_lt_zero m))

/-- C2.  No-match fallback: if no rule matches, evaluation returns the
output-column name mapped to `null`, as an ordinary result. -/
theorem noMatchNull (d : Decision) (inputs : Inputs)
    (h : ∀ r ∈ d.rules, ruleMatches inputs r = false) :
    evaluateDecision d inputs = (d.output.name, JValue.null) := by
  unfold evaluateDecision
  rw [List.find?_eq_none.mpr (fun x hx => by simp [h x hx])]

/-- C2 witness: an unknown gender matches no rule of the clinical table. -/
theorem noMatchNull_witness :
    evaluateDecision bcsDecision [("Gender", .str "unknown")] =
      ("RecommendMammogram", JValue.null) :=
  noMatchNull bcsDecision [("Gender", .str "unknown")] (by decide)

/-- C7.  An absent input value fails every non-wildcard test, so a rule
conditioned on a missing column does not match (and evaluation proceeds
without any fault). -/
theorem absentInputNoMatch (t : UnaryTest) (ht : t ≠ .wildcard)
    (inputs : Inputs) (r : Rule) (c : Condition)
    (hc : c ∈ r.conditions) (htest : c.test = t)
    (hmiss : lookupInput inputs c.inputName = .undefined) :
    evalUnaryTest t .undefined = false ∧ ruleMatches inputs r = false := by
  have hfalse : evalUnaryTest t JValue.undefined = false := by
    cases t with
    | wildcard => exact absurd rfl ht
    | stringEq s => rfl
    | boolEq b => rfl
    | range mn mx => rfl
    | comp op n => cases op <;> rfl
    | intEq n => rfl
  refine ⟨hfalse, ?_⟩
  rw [ruleMatches, List.all_eq_false]
  exact ⟨c, hc, by simp [condHolds, hmiss, htest, hfalse]⟩

/-- C7 witness: an integer-equality condition on a column absent from the
input mapping leaves the rule unmatched. -/
theorem absentInputNoMatch_witness :
    evalUnaryTest (.intEq 5) .undefined = false ∧
    ruleMatches [] ⟨[⟨"AgeInYears", .intEq 5⟩], .bool true⟩ = false :=
  absentInputNoMatch (.intEq 5) (by decide) []
    ⟨[⟨"AgeInYears", .intEq 5⟩], .bool true⟩ ⟨"AgeInYears", .intEq 5⟩
    (List.mem_cons_self _ _) rfl rfl

/-- C8.  Evaluation is pure and mutation-free: identical arguments give
identical results, the decision value threaded through the rule loop
comes back unchanged, and the threaded loop computes the same output as
the pure evaluator. -/
theorem evaluationPure (d₁ d₂ : Decision) (i₁ i₂ : Inputs)
    (hd : d₁ = d₂) (hi : i₁ = i₂) :
    evaluateDecisionSt d₁ i₁ = evaluateDecisionSt d₂ i₂ ∧
    (evaluateDecisionSt d₁ i₁).2 = d₁ ∧
    (evaluateDecisionSt d₁ i₁).1 = evaluateDecision d₁ i₁ := by
  subst hd
  subst hi
  refine ⟨rfl, evalRulesLoop_snd d₁ i₁ d₁.rules, ?_⟩
  rw [evaluateDecisionSt, evalRulesLoop_fst d₁ i₁ d₁.rules, evaluateDecision]

/-- C8 witness: a run of the state-threading evaluator on the clinical
table returns the pure evaluator's result together with the unchanged
table. -/
theorem evaluationPure_witness :
    evaluateDecisionSt bcsDecision [("Gender", .str "male")] =
      (evaluateDecision bcsDecision [("Gender", .str "male")], bcsDecision) := by
  have h := evaluationPure bcsDecision bcsDecision
    [("Gender", .str "male")] [("Gender", .str "male")] rfl rfl
  exact Prod.ext h.2.2 h.2.1

/-! Claims about the expression compiler. -/

/-- A list with non-whitespace first and last characters is untouched by
`trimChars` whatever lies in between. -/
theorem trimChars_of_edges (c d : Char) (m : List Char)
    (hc : isJsWhitespace c = false) (hd : isJsWhitespace d = false) :
    trimChars (c :: (m ++ [d])) = c :: (m ++ [d]) := by
  unfold trimChars
  rw [List.dropWhile_cons, hc]
  simp only [Bool.false_eq_true, if_false]
  have hrev : (c :: (m ++ [d])).reverse = d :: (m.reverse ++ [c]) := by
    rw [List.reverse_cons, List.reverse_append]
    simp
  rw [hrev, List.dropWhile_cons, hd]
  simp only [Bool.false_eq_true, if_false]
  rw [← hrev, List.reverse_reverse]

/-- C3 counterexample: the inverted range text `[1..0]` compiles, but its
predicate rejects the lower bound `min = 1` itself, contradicting the
unconditional claim that input `min` always matches. -/
theorem rangeEndpointsCex :
    parseUnaryTest "[1..0]" "number" = .ok (.range 1 0) ∧
    evalUnaryTest (.range 1 0) (.int 1) = false ∧
    evalUnaryTest (.range 1 0) (.int 0) = false :=
  ⟨rfl, rfl, rfl⟩

/-- C3 (amended with `min ≤ max` for the endpoint clause).  Compiling
`[min..max]` (decimal digit runs) yields the range test over the two
values; a range test holds on a numeric input exactly when
`min ≤ x ≤ max`; when `min ≤ max` both endpoints match, and `min - 1`
and `max + 1` never match. -/
theorem rangeInclusive (a b : List Char) (ha : a ≠ []) (hb : b ≠ [])
    (hda : ∀ c ∈ a, Char.isDigit c = true) (hdb : ∀ c ∈ b, Char.isDigit c = true)
    (ty : String) :
    parseUnaryTest ⟨'[' :: (a ++ '.' :: '.' :: (b ++ [']']))⟩ ty =
      .ok (.range (digitsVal a) (digitsVal b)) ∧
    (∀ mn mx x : Int,
      evalUnaryTest (.range mn mx) (.int x) = true ↔ mn ≤ x ∧ x ≤ mx) ∧
    (∀ mn mx : Int, mn ≤ mx →
      evalUnaryTest (.range mn mx) (.int mn) = true ∧
      evalUnaryTest (.range mn mx) (.int mx) = true) ∧
    (∀ mn mx : Int,
      evalUnaryTest (.range mn mx) (.int (mn - 1)) = false ∧
      evalUnaryTest (.range mn mx) (.int (mx + 1)) = false) := by
  have hsem : ∀ mn mx x : Int,
      evalUnaryTest (.range mn mx) (.int x) = true ↔ mn ≤ x ∧ x ≤ mx := by
    intro mn mx x
    show (jsGeNum (.int x) mn && jsLeNum (.int x) mx) = true ↔ _
    unfold jsGeNum jsLeNum jsToNumber
    simp
  refine ⟨parseUnaryTestL_range a b ha hb hda hdb, hsem, ?_, ?_⟩
  · intro mn mx hle
    exact ⟨(hsem mn mx mn).mpr ⟨le_refl mn, hle⟩, (hsem mn mx mx).mpr ⟨hle, le_refl mx⟩⟩
  · intro mn mx
    constructor
    · rw [Bool.eq_false_iff]
      intro hcontra
      have := (hsem mn mx (mn - 1)).mp hcontra
      omega
    · rw [Bool.eq_false_iff]
      intro hcontra
      have := (hsem mn mx (mx + 1)).mp hcontra
      omega

/-- C3 witness: the concrete range `[40..74]`. -/
theorem rangeInclusive_witness :
    parseUnaryTest "[40..74]" "number" = .ok (.range 40 74) ∧
    evalUnaryTest (.range 40 74) (.int 40) = true ∧
    evalUnaryTest (.range 40 74) (.int 74) = true ∧
    evalUnaryTest (.range 40 74) (.int 39) = false ∧
    evalUnaryTest (.range 40 74) (.int 75) = false := by
  have h := rangeInclusive ['4', '0'] ['7', '4']
    (by decide) (by decide) (by decide) (by decide) "number"
  refine ⟨h.1, ?_, ?_, ?_, ?_⟩
  · exact (h.2.1 40 74 40).mpr (by omega)
  · exact (h.2.1 40 74 74).mpr (by omega)
  · have := (h.2.2.2 40 74).1
    simpa using this
  · have := (h.2.2.2 40 74).2
    simpa using this

/-- C10.  An inverted range (`min > max`) still compiles — no error —
and the resulting predicate rejects every runtime value. -/
theorem invertedRangeUnsat (a b : List Char) (ha : a ≠ []) (hb : b ≠ [])
    (hda : ∀ c ∈ a, Char.isDigit c = true) (hdb : ∀ c ∈ b, Char.isDigit c = true)
    (hgt : digitsVal b < digitsVal a) (ty : String) :
    parseUnaryTest ⟨'[' :: (a ++ '.' :: '.' :: (b ++ [']']))⟩ ty =
      .ok (.range (digitsVal a) (digitsVal b)) ∧
    ∀ v : JValue, evalUnaryTest (.range (digitsVal a) (digitsVal b)) v = false := by
  refine ⟨parseUnaryTestL_range a b ha hb hda hdb, ?_⟩
  intro v
  show (jsGeNum v (digitsVal a) && jsLeNum v (digitsVal b)) = false
  unfold jsGeNum jsLeNum
  cases h : jsToNumber v with
  | none => rfl
  | some m =>
    simp only []
    by_cases h1 : (digitsVal a : Int) ≤ m
    · have h2 : ¬ (m ≤ (digitsVal b : Int)) := by omega
      simp [h1, h2]
    · simp [h1]

/-- C10 witness: the inverted range `[5..3]` compiles and rejects 5, 4,
3, a string, a boolean, and the absent value. -/
theorem invertedRangeUnsat_witness :
    parseUnaryTest "[5..3]" "number" = .ok (.range 5 3) ∧
    evalUnaryTest (.range 5 3) (.int 5) = false ∧
    evalUnaryTest (.range 5 3) (.int 4) = false ∧
    evalUnaryTest (.range 5 3) (.int 3) = false ∧
    evalUnaryTest (.range 5 3) (.str "4") = false ∧
    evalUnaryTest (.range 5 3) (.bool true) = false ∧
    evalUnaryTest (.range 5 3) .undefined = false := by
  have h := invertedRangeUnsat ['5'] ['3']
    (by decide) (by decide) (by decide) (by decide) (by decide) "number"
  exact ⟨h.1, h.2 (.int 5), h.2 (.int 4), h.2 (.int 3), h.2 (.str "4"),
    h.2 (.bool true), h.2 .undefined⟩

/-- C4.  The empty string, the lone dash, and whitespace-only text all
compile to the wildcard test, which accepts every value, the absent
value included. -/
theorem wildcardAlwaysTrue (s : String) (ty : String)
    (h : s = "" ∨ s = "-" ∨ ∀ c ∈ s.data, isJsWhitespace c = true) :
    parseUnaryTest s ty = .ok .wildcard ∧
    ∀ v : JValue, evalUnaryTest .wildcard v = true := by
  constructor
  · show parseUnaryTestL s.data = _
    unfold parseUnaryTestL
    rcases h with rfl | rfl | h
    · rw [if_pos (Or.inl rfl)]
    · rw [if_pos (Or.inr (Or.inl rfl))]
    · rw [if_pos (Or.inr (Or.inr (trimChars_of_all_ws s.data h)))]
  · intro v
    rfl

/-- C4 witness: the dash, a whitespace-only cell, and the absent value. -/
theorem wildcardAlwaysTrue_witness :
    parseUnaryTest "-" "string" = .ok .wildcard ∧
    parseUnaryTest "  " "number" = .ok .wildcard ∧
    evalUnaryTest .wildcard .undefined = true := by
  obtain ⟨h1, h2⟩ := wildcardAlwaysTrue "-" "string" (Or.inr (Or.inl rfl))
  obtain ⟨h3, _⟩ := wildcardAlwaysTrue "  " "number" (Or.inr (Or.inr (by decide)))
  exact ⟨h1, h3, h2 .undefined⟩

/-- C5.  Trimmed non-empty cell text matching none of the grammar's
patterns — not the wildcard forms, not quoted, not a boolean literal,
not a range, not a comparison, not a digit run — compiles to an error
that names the unrecognized text. -/
theorem unrecognizedFails (s : String) (ty : String)
    (hne : s.data ≠ []) (hdash : s.data ≠ ['-'])
    (htrim : trimChars s.data = s.data)
    (hq : (headIs '"' s.data && lastIs '"' s.data) = false)
    (htrue : s.data ≠ "true".data) (hfalse : s.data ≠ "false".data)
    (hrange : rangeMatchL s.data = none) (hcomp : compMatchL s.data = none)
    (hdig : isDigitsL s.data = false) :
    parseUnaryTest s ty = .error ("Unsupported FEEL expression: " ++ s) := by
  show parseUnaryTestL s.data = _
  unfold parseUnaryTestL
  rw [if_neg (by simp [hne, hdash, htrim])]
  simp only [htrim, hq, Bool.false_eq_true, if_false, if_neg htrue, if_neg hfalse,
    hrange, hcomp, hdig]

/-- C5 witness: the decimal literal `3.5` and the negative literal `-5`
are both rejected at compile time. -/
theorem unrecognizedFails_witness :
    parseUnaryTest "3.5" "number" = .error ("Unsupported FEEL expression: " ++ "3.5") ∧
    parseUnaryTest "-5" "number" = .error ("Unsupported FEEL expression: " ++ "-5") := by
  constructor
  · exact unrecognizedFails "3.5" "number" (by decide) (by decide) (by decide)
      (by decide) (by decide) (by decide) (by decide) (by decide) (by decide)
  · exact unrecognizedFails "-5" "number" (by decide) (by decide) (by decide)
      (by decide) (by decide) (by decide) (by decide) (by decide) (by decide)

/-- C9.  Quoted text wins over the numeric recognizers: `"40"` (with
quotes) compiles to a string-equality test that accepts the string `40`
and rejects the number `40`. -/
theorem quotedPrecedence :
    parseUnaryTest "\"40\"" "string" = .ok (.stringEq "40") ∧
    evalUnaryTest (.stringEq "40") (.str "40") = true ∧
    evalUnaryTest (.stringEq "40") (.int 40) = false :=
  ⟨rfl, rfl, rfl⟩

/-- C6 counterexample: the non-literal output text `3.5` does not raise
any error — `parseOutputExpression` returns it as the plain string
`3.5`. -/
theorem outputFallbackCex :
    parseOutputExpression "3.5" = .str "3.5" ∧
    parseOutputExpression "P3Y" = .str "P3Y" :=
  ⟨rfl, rfl⟩

/-- C6 (amended).  Output-cell compilation recognizes the literal forms
— empty text gives `null`, `true`/`false` give booleans, a double-quoted
string gives the unquoted string, a digit run gives the integer — and
any other non-empty text yields the trimmed text itself as a plain
string value; it never fails. -/
theorem outputLiteralForms :
    parseOutputExpression "" = .null ∧
    parseOutputExpression "true" = .bool true ∧
    parseOutputExpression "false" = .bool false ∧
    (∀ s : String, parseOutputExpression ("\"" ++ s ++ "\"") = .str s) ∧
    (∀ a : List Char, a ≠ [] → (∀ c ∈ a, Char.isDigit c = true) →
      parseOutputExpression ⟨a⟩ = .int (digitsVal a)) ∧
    (∀ s : String, s.data ≠ [] →
      trimChars s.data ≠ "true".data → trimChars s.data ≠ "false".data →
      (headIs '"' (trimChars s.data) && lastIs '"' (trimChars s.data)) = false →
      isDigitsL (trimChars s.data) = false →
      parseOutputExpression s = .str ⟨trimChars s.data⟩) := by
  refine ⟨rfl, rfl, rfl, ?_, ?_, ?_⟩
  · intro s
    show parseOutputExpressionL ("\"" ++ s ++ "\"").data = _
    have hdata : ("\"" ++ s ++ "\"").data = '"' :: (s.data ++ ['"']) := by
      rw [String.data_append, String.data_append]
      rfl
    rw [hdata]
    have htrim : trimChars ('"' :: (s.data ++ ['"'])) = '"' :: (s.data ++ ['"']) :=
      trimChars_of_edges '"' '"' s.data (by decide) (by decide)
    have htrue : ('"' :: (s.data ++ ['"'])) ≠ "true".data := by
      rw [show "true".data = ['t', 'r', 'u', 'e'] from rfl]
      intro h
      injection h with h1 _
      exact absurd h1 (by decide)
    have hfalse : ('"' :: (s.data ++ ['"'])) ≠ "false".data := by
      rw [show "false".data = ['f', 'a', 'l', 's', 'e'] from rfl]
      intro h
      injection h with h1 _
      exact absurd h1 (by decide)
    have hlast : lastIs '"' ('"' :: (s.data ++ ['"'])) = true := by
      unfold lastIs
      rw [List.reverse_cons, List.reverse_append]
      rfl
    unfold parseOutputExpressionL
    rw [if_neg (by simp)]
    simp only [htrim]
    rw [if_neg htrue, if_neg hfalse]
    rw [show headIs '"' ('"' :: (s.data ++ ['"'])) = true from rfl, hlast]
    simp only [Bool.and_self, if_true]
    have hstrip : (('"' :: (s.data ++ ['"'])).drop 1).dropLast = s.data := by
      rw [List.drop_one, List.tail_cons, List.dropLast_concat]
    rw [hstrip]
  · intro a ha hda
    show parseOutputExpressionL (⟨a⟩ : String).data = _
    have hdata : (⟨a⟩ : String).data = a := rfl
    rw [hdata]
    have htrim : trimChars a = a :=
      trimChars_of_forall a (fun c hc => not_ws_of_isDigit (hda c hc))
    have htrue : a ≠ "true".data := by
      intro h
      have hmem : 't' ∈ a := by
        rw [h]
        decide
      exact absurd (hda 't' hmem) (by decide)
    have hfalse : a ≠ "false".data := by
      intro h
      have hmem : 'f' ∈ a := by
        rw [h]
        decide
      exact absurd (hda 'f' hmem) (by decide)
    have hq : headIs '"' a = false := by
      cases a with
      | nil => rfl
      | cons c rest =>
        have := hda c (List.mem_cons_self c rest)
        unfold headIs
        rw [beq_eq_false_iff_ne]
        intro hceq
        rw [hceq] at this
        exact absurd this (by decide)
    have hdig : isDigitsL a = true := by
      unfold isDigitsL
      rw [Bool.and_eq_true, List.all_eq_true]
      exact ⟨by simpa using ha, hda⟩
    unfold parseOutputExpressionL
    rw [if_neg ha]
    simp only [htrim]
    rw [if_neg htrue, if_neg hfalse, hq]
    simp only [Bool.false_and, Bool.false_eq_true, if_false, hdig, if_true]
  · intro s hne htrue hfalse hq hdig
    show parseOutputExpressionL s.data = _
    unfold parseOutputExpressionL
    rw [if_neg hne]
    simp only [if_neg htrue, if_neg hfalse, hq, Bool.false_eq_true, if_false, hdig]

/-- C6 witness: the literal forms and the fallback at concrete cells. -/
theorem outputLiteralForms_witness :
    parseOutputExpression "\"abc\"" = .str "abc" ∧
    parseOutputExpression "42" = .int 42 ∧
    parseOutputExpression " P3Y " = .str "P3Y" := by
  have h := outputLiteralForms
  refine ⟨?_, ?_, ?_⟩
  · exact h.2.2.2.1 "abc"
  · have := h.2.2.2.2.1 ['4', '2'] (by decide) (by decide)
    simpa using this
  · have := h.2.2.2.2.2 " P3Y " (by decide) (by decide) (by decide) (by decide) (by decide)
    simpa using this

end DMN
